import Mathlib

/-!
Shallow embedding of `statemachine/states.py` (class `States`): an ordered,
name-keyed registry of state entities, with an enumeration-based constructor
`States.from_enum`. Python's insertion-ordered `dict` is modelled as an
association list with dict-assignment semantics (`dictSet`). The `State`
class and `ensure_iterable` helper are imported by the source file from
modules not present here; they are modelled from the spec where noted.
-/

set_option autoImplicit false

/-- A member of a Python `Enum` class: a symbolic name paired with an
underlying scalar value. `enumId` identifies the owning enum class, so that
equality of `EnumConst` coincides with Python object identity (`is`) for
enum members: members are interned singletons, identical iff they belong to
the same class and have the same name. -/
structure EnumConst where
  enumId : Nat
  name : String
  value : Int
deriving DecidableEq, Repr

/-- The value stored in a state entity: either a plain scalar (int or
string), or the enum constant itself (when `use_enum_instance` is set). -/
inductive Value where
  | int : Int → Value
  | str : String → Value
  | enum : EnumConst → Value
deriving DecidableEq, Repr

/-- Modelled from the spec: the `State` class (imported by the source from
`.state`, not present here) is a StateEntity — identity `id`, opaque
`value`, and `initial`/`final` flags, immutable once constructed. -/
structure State where
  id : String
  value : Value
  initial : Bool := false
  final : Bool := false
deriving DecidableEq, Repr

/-- Python exception kinds relevant to this component. `AttributeError` and
`TypeError` are the host's generic signals actually raised by the code;
`notFound` and `invalidInput` are the dedicated error kinds named by the
spec's taxonomy (never produced by the source) and exist so that the spec's
error-kind claims can be stated and compared against the code's behavior. -/
inductive PyExc where
  | attributeError (msg : String)
  | typeError (msg : String)
  | notFound (name : String)
  | invalidInput (msg : String)
deriving DecidableEq, Repr

/-- Python dict assignment `d[k] = v` on an insertion-ordered dict: if the
key is present, the value is replaced in place at the key's original
position (the stored key object is kept); otherwise the pair is appended at
the end. -/
def dictSet (d : List (String × State)) (k : String) (v : State) : List (String × State) :=
  match d with
  | [] => [(k, v)]
  | (k', v') :: rest => if k' = k then (k', v) :: rest else (k', v') :: dictSet rest k v

/-- Python dict comprehension semantics: starting from an empty dict, assign
each pair in order (a duplicate key overwrites in place). -/
def dictOfList (l : List (String × State)) : List (String × State) :=
  l.foldl (fun d kv => dictSet d kv.1 kv.2) []

/-- The registry class `States`: wraps the insertion-ordered mapping
`self._states` from `State.id` to `State`. -/
structure States where
  _states : List (String × State)
deriving DecidableEq, Repr

namespace States

/-- Embeds `States.__init__`: stores the given mapping, or an empty one when
omitted. No validation is performed. -/
def init (states : Option (List (String × State)) := none) : States :=
  ⟨states.getD []⟩

/-- Embeds `States.__iter__` composed with `list(...)`: the sequence of
entities in insertion order, `iter(self._states.values())`. -/
def list (s : States) : List State :=
  s._states.map Prod.snd

/-- An iterable operand of `States.__eq__`, i.e. anything `list(other)`
accepts: another registry or a plain Python list of states. -/
inductive PyIterable where
  | registry (s : States)
  | pyList (l : List State)

/-- Python `list(other)` on an iterable operand. -/
def pyListOf : PyIterable → List State
  | .registry s => s.list
  | .pyList l => l

/-- Embeds `States.__eq__`: `list(self) == list(other)`. -/
def eq (a : States) (other : PyIterable) : Bool :=
  a.list == pyListOf other

/-- Embeds `States.__len__`: `len(self._states)`. -/
def length (s : States) : Nat :=
  s._states.length

/-- Embeds `States.__getattr__` (lines 56-59): if `name in self._states`
return `self._states[name]`, else raise
`AttributeError(f"{name} not found in States")`. Note: the raised error is
the host's generic missing-attribute exception, not a dedicated kind. -/
def getattr (s : States) (name : String) : Except PyExc State :=
  match s._states.lookup name with
  | some st => .ok st
  | none => .error (.attributeError (name ++ " not found in States"))

/-- Embeds `States.append`: `self._states[state.id] = state`. -/
def append (s : States) (state : State) : States :=
  ⟨dictSet s._states state.id state⟩

/-- Embeds `States.items`: pairs `(State.id, State)` in insertion order. -/
def items (s : States) : List (String × State) :=
  s._states

/-- Attribute names bound on a `States` object before `__getattr__` is
consulted: the instance attribute `_states` and the methods defined in the
class body. Python's attribute protocol resolves these first and calls
`__getattr__` only when ordinary lookup fails, so a state id equal to one of
these names is shadowed. -/
def reservedNames : List String :=
  ["_states", "__init__", "__repr__", "__eq__", "__getattr__", "__len__",
   "__iter__", "append", "items", "from_enum"]

/-- Result of full Python attribute access on a registry: either one of the
registry's own bound members (a method or the `_states` slot), or a state
entity served by `__getattr__`. -/
inductive Attr where
  | boundMember (name : String)
  | state (st : State)
deriving DecidableEq, Repr

/-- Python's full attribute protocol on a `States` object: ordinary lookup
(class methods and instance slots) first; only on its failure is
`__getattr__` consulted. -/
def getattribute (s : States) (name : String) : Except PyExc Attr :=
  if reservedNames.contains name then .ok (.boundMember name)
  else
    match s.getattr name with
    | .ok st => .ok (.state st)
    | .error e => .error e

end States

/-- The `final` argument of `from_enum`: absent (`None`, the default), a
single enum constant, or a collection of constants. -/
inductive FinalSel where
  | none
  | single (c : EnumConst)
  | many (cs : List EnumConst)

/-- Modelled from the spec: `ensure_iterable` (imported by the source from
`.utils`, not present here) normalizes the final selector uniformly —
a collection is passed through, a single constant is wrapped in a singleton,
and an absent selector yields an empty collection. -/
def ensure_iterable : FinalSel → List EnumConst
  | .none => []
  | .single c => [c]
  | .many cs => cs

namespace States

/-- Embeds `States.from_enum`: normalize the final selector into a set, then
build, for each constant in declaration order, a `State` with the constant's
name as id, value = the constant itself or its scalar depending on
`use_enum_instance`, `initial` iff the constant `is` the designated initial
constant, `final` iff it is in the final set; collect them into a fresh
registry keyed by name (a dict comprehension). Only membership is consulted
on `final_set`, so `set(...)` is modelled by the normalized list itself.
The spec supplies the fact (not visible in this file's source) that the
entity's id is the constant's symbolic name. -/
def from_enum (enum_type : List EnumConst) (initial : EnumConst)
    (final : FinalSel := .none) (use_enum_instance : Bool := false) : States :=
  let final_set := ensure_iterable final
  States.init (some (dictOfList (enum_type.map (fun e =>
    (e.name,
     { id := e.name
       value := if use_enum_instance then Value.enum e else Value.int e.value
       initial := e == initial
       final := final_set.contains e : State })))))

end States

/-- The iterator object returned by `States.__iter__`, namely
`iter(self._states.values())`: a cursor over the remaining values. Each call
to `__iter__` builds a fresh one from the registry's current values. -/
structure ValuesIterator where
  remaining : List State
deriving DecidableEq, Repr

namespace ValuesIterator

/-- One step of the iterator protocol (`__next__`): the next entity and the
advanced iterator, or exhaustion. -/
def next : ValuesIterator → Option (State × ValuesIterator)
  | ⟨[]⟩ => none
  | ⟨x :: xs⟩ => some (x, ⟨xs⟩)

/-- Advance the iterator by `n` steps (stopping at exhaustion). -/
def stepN : Nat → ValuesIterator → ValuesIterator
  | 0, it => it
  | n + 1, it =>
    match it.next with
    | none => it
    | some (_, it') => stepN n it'

/-- The full traversal of an iterator: repeatedly apply `next` until
exhaustion, collecting the entities. Always terminates (the sequence is
finite). -/
def drain : ValuesIterator → List State
  | ⟨[]⟩ => []
  | ⟨x :: xs⟩ => x :: drain ⟨xs⟩

end ValuesIterator

namespace States

/-- Embeds a call to `States.__iter__`: returns a fresh iterator over the
values in insertion order. -/
def iter (s : States) : ValuesIterator :=
  ⟨s.list⟩

end States

/-- A Python value handed to `States.__init__` as the `states` argument.
The annotation `Dict[str, State]` is not enforced at runtime, so a
malformed (non-mapping) value such as an `int` can be supplied. -/
inductive PyVal where
  | dict (entries : List (String × State))
  | pyInt (n : Int)
deriving DecidableEq, Repr

namespace States

/-- Embeds `States.__init__` over dynamically typed input:
`self._states = states if states is not None else {}`. A plain assignment —
no validation occurs and no exception can be raised, whatever `states` is;
the result is the (possibly malformed) stored value. -/
def initDyn (states : Option PyVal) : Except PyExc PyVal :=
  .ok (states.getD (.dict []))

/-- First use of a registry whose stored `_states` is the dynamically typed
value `v`: `list(self)` evaluates `iter(self._states.values())`. On a dict
this yields the values in order; on an `int` the attribute access `.values`
raises `AttributeError` — only now, lazily, does a malformed mapping fail. -/
def iterDyn : PyVal → Except PyExc (List State)
  | .dict entries => .ok (entries.map Prod.snd)
  | .pyInt _ => .error (.attributeError "int object has no attribute values")

/-- The `enum_type` argument of `from_enum` as a dynamically typed value:
an actual enumeration (iterable of constants), a non-iterable value, or an
iterable whose elements are not enum constants (e.g. plain ints, which lack
the `.name` attribute). -/
inductive PyEnumArg where
  | enum (members : List EnumConst)
  | notIterable (n : Int)
  | iterableOfInts (xs : List Int)
deriving DecidableEq, Repr

/-- Embeds `States.from_enum` over dynamically typed input. The dict
comprehension `{e.name: ... for e in enum_type}` runs eagerly inside
`from_enum`: iterating a non-iterable raises `TypeError` at once, and
reading `.name` off a non-constant element raises `AttributeError` at once —
in both cases before `cls(...)` is reached, so no registry (partial or
otherwise) is ever produced on failure. -/
def from_enumDyn (enum_type : PyEnumArg) (initial : EnumConst)
    (final : FinalSel := .none) (use_enum_instance : Bool := false) :
    Except PyExc States :=
  match enum_type with
  | .enum members => .ok (from_enum members initial final use_enum_instance)
  | .notIterable _ => .error (.typeError "int object is not iterable")
  | .iterableOfInts _ => .error (.attributeError "int object has no attribute name")

end States

/-- Discriminates whether a lookup result is the spec's dedicated `NotFound`
error kind. -/
def isNotFoundErr : Except PyExc State → Bool
  | .error (.notFound _) => true
  | _ => false

/-! ### Sample entities and registries used by concrete witnesses -/

def stA : State := { id := "A", value := .int 1 }

def stB : State := { id := "B", value := .int 2 }

def stC : State := { id := "C", value := .int 3 }

def stB2 : State := { id := "B", value := .int 20 }

def regABC : States := ⟨[("A", stA), ("B", stB), ("C", stC)]⟩

/-! ### Dict and iterator lemmas -/

theorem dictSet_of_not_mem (d : List (String × State)) (k : String) (v : State)
    (h : k ∉ d.map Prod.fst) : dictSet d k v = d ++ [(k, v)] := by
  induction d with
  | nil => rfl
  | cons p rest ih =>
    obtain ⟨k', v'⟩ := p
    simp only [List.map_cons, List.mem_cons, not_or] at h
    simp only [dictSet, if_neg (Ne.symm h.1), List.cons_append, ih h.2]

theorem dictSet_replace (d : List (String × State)) (k : String) (v : State)
    (hN : (d.map Prod.fst).Nodup) (hmem : k ∈ d.map Prod.fst) :
    dictSet d k v = d.map (fun p => if p.1 = k then (p.1, v) else p) := by
  induction d with
  | nil => simp at hmem
  | cons p rest ih =>
    obtain ⟨k', v'⟩ := p
    simp only [List.map_cons, List.nodup_cons] at hN
    by_cases hk : k' = k
    · subst hk
      have : rest.map (fun p => if p.1 = k' then (p.1, v) else p) = rest := by
        have := List.map_congr_left (l := rest)
          (f := fun p => if p.1 = k' then (p.1, v) else p) (g := id) ?_
        · simpa using this
        · intro p hp
          have : p.1 ≠ k' := by
            intro hc
            exact hN.1 (hc ▸ List.mem_map_of_mem Prod.fst hp)
          simp [this]
      simp [dictSet, this]
    · have hmem' : k ∈ rest.map Prod.fst := by
        rcases List.mem_cons.mp hmem with h | h
        · exact absurd h.symm hk
        · exact h
      simp only [dictSet, if_neg hk, List.map_cons, if_neg hk, ih hN.2 hmem']

theorem dictOfList_go (l : List (String × State)) :
    ∀ acc : List (String × State),
      (l.map Prod.fst).Nodup → (∀ k, k ∈ l.map Prod.fst → k ∉ acc.map Prod.fst) →
      l.foldl (fun d kv => dictSet d kv.1 kv.2) acc = acc ++ l := by
  induction l with
  | nil => intro acc _ _; simp
  | cons p rest ih =>
    intro acc hN hdis
    obtain ⟨k, v⟩ := p
    simp only [List.map_cons, List.nodup_cons] at hN
    have hk : k ∉ acc.map Prod.fst := hdis k (by simp)
    simp only [List.foldl_cons]
    rw [dictSet_of_not_mem acc k v hk]
    rw [ih (acc ++ [(k, v)]) hN.2 ?_]
    · simp
    · intro k' hk'
      simp only [List.map_append, List.mem_append, List.map_cons, List.map_nil,
        List.mem_singleton, not_or]
      refine ⟨fun hc => hdis k' (by simp [hk']) hc, fun hc => ?_⟩
      exact hN.1 (hc ▸ hk')

theorem dictOfList_eq_self (l : List (String × State))
    (hN : (l.map Prod.fst).Nodup) : dictOfList l = l := by
  simpa using dictOfList_go l [] hN (by simp)

theorem drain_mk (l : List State) : ValuesIterator.drain ⟨l⟩ = l := by
  induction l with
  | nil => simp [ValuesIterator.drain]
  | cons x xs ih => simp only [ValuesIterator.drain, ih]

theorem stepN_drain (k : Nat) :
    ∀ l : List State, (ValuesIterator.stepN k ⟨l⟩).drain = l.drop k := by
  induction k with
  | zero => intro l; simp [ValuesIterator.stepN, drain_mk]
  | succ n ih =>
    intro l
    cases l with
    | nil => simp [ValuesIterator.stepN, ValuesIterator.next, ValuesIterator.drain]
    | cons x xs => simpa [ValuesIterator.stepN, ValuesIterator.next] using ih xs

/-! ### Claim theorems -/

/-- C1. For every registry whose keys are distinct (the dict invariant) and
every entity `e` whose id is already a key, `append e` replaces the old
entity in place at the key's original position: the stored list becomes the
pointwise update at that key, the key sequence (hence every other entry's
position) is unchanged, and the length is unchanged — replacement, not
move-to-end. -/
theorem c1_append_replaces_in_place (s : States) (e : State)
    (hN : (s._states.map Prod.fst).Nodup)
    (hmem : e.id ∈ s._states.map Prod.fst) :
    (s.append e)._states = s._states.map (fun p => if p.1 = e.id then (p.1, e) else p) ∧
    (s.append e)._states.map Prod.fst = s._states.map Prod.fst ∧
    (s.append e).length = s.length := by
  have hrepl := dictSet_replace s._states e.id e hN hmem
  refine ⟨hrepl, ?_, ?_⟩
  · show (dictSet s._states e.id e).map Prod.fst = _
    rw [hrepl, List.map_map]
    refine List.map_congr_left fun p _ => ?_
    by_cases hp : p.1 = e.id <;> simp [hp]
  · show (dictSet s._states e.id e).length = _
    rw [hrepl, List.length_map]
    rfl

/-- Witness for C1: on the registry iterating as `[A, B, C]` and the entity
`B2` with the same id as `B` but a different value, `append B2` yields a
registry iterating as `[A, B2, C]` — not `[A, C, B2]`. -/
theorem c1_witness :
    (regABC.append stB2)._states =
      regABC._states.map (fun p => if p.1 = stB2.id then (p.1, stB2) else p) ∧
    (regABC.append stB2).list = [stA, stB2, stC] := by
  refine ⟨(c1_append_replaces_in_place regABC stB2 (by decide) (by decide)).1, by decide⟩

/-- C2 counterexample: on a concrete registry, looking up an unregistered
name fails with the host's generic missing-attribute error
(`AttributeError("missing not found in States")`), not with a dedicated
NotFound error kind — refuting the claim as stated. -/
theorem c2_counterexample :
    States.getattr (States.init (some [("A", stA)])) "missing" =
      .error (.attributeError "missing not found in States") ∧
    isNotFoundErr (States.getattr (States.init (some [("A", stA)])) "missing") = false := by
  exact ⟨rfl, rfl⟩

/-- C2 amended: for every registry and every name that is not a key of the
stored mapping, lookup-by-name fails with the generic missing-attribute
signal (`AttributeError` carrying a "not found" message), not a dedicated
NotFound error kind; and when an entity is stored under that name,
lookup-by-name returns it. -/
theorem c2_lookup_error_kind (s : States) (name : String) :
    (s._states.lookup name = none →
      s.getattr name = .error (.attributeError (name ++ " not found in States")) ∧
      isNotFoundErr (s.getattr name) = false) ∧
    (∀ st, s._states.lookup name = some st → s.getattr name = .ok st) := by
  refine ⟨fun h => ?_, fun st h => ?_⟩
  · simp [States.getattr, h, isNotFoundErr]
  · simp [States.getattr, h]

/-- Witness for C2 (amended): concrete success and concrete generic-error
failure. -/
theorem c2_witness :
    States.getattr (States.init (some [("A", stA)])) "A" = .ok stA ∧
    isNotFoundErr (States.getattr (States.init (some [("A", stA)])) "absent") = false := by
  refine ⟨(c2_lookup_error_kind (States.init (some [("A", stA)])) "A").2 stA (by decide),
    ((c2_lookup_error_kind (States.init (some [("A", stA)])) "absent").1 (by decide)).2⟩

/-- C8. For every registry containing an entity stored under a name that
collides with one of the registry's own bound member names (such as
`append` or `items`), full attribute access on that name returns the bound
member, never the entity — the entity is unreachable via lookup-by-name —
yet the entity is still present in `items()` and in the iteration
sequence. -/
theorem c8_reserved_shadowing (s : States) (name : String) (st : State)
    (hres : name ∈ States.reservedNames) (hmem : (name, st) ∈ s._states) :
    s.getattribute name = .ok (.boundMember name) ∧
    (name, st) ∈ s.items ∧ st ∈ s.list := by
  refine ⟨?_, hmem, List.mem_map_of_mem Prod.snd hmem⟩
  rw [States.getattribute, if_pos ?_]
  simpa [List.contains_iff_exists_mem_beq] using hres

def stShadow : State := { id := "append", value := .int 9 }

/-- Witness for C8: a registry holding an entity under the id `"append"`.
Attribute access yields the registry's own `append` member, while `items()`
and iteration still expose the entity. -/
theorem c8_witness :
    (States.init (some [("append", stShadow)])).getattribute "append" =
      .ok (.boundMember "append") ∧
    ("append", stShadow) ∈ (States.init (some [("append", stShadow)])).items ∧
    stShadow ∈ (States.init (some [("append", stShadow)])).list :=
  c8_reserved_shadowing (States.init (some [("append", stShadow)])) "append" stShadow
    (by decide) (by decide)

/-- C3. Iterating a registry constructed from an ordered mapping `m` yields
the entities in exactly the mapping's insertion order; the traversal is
finite (`drain` terminates with that list); after a traversal consumed `k`
elements the partially consumed iterator continues with the `k`-th suffix,
while each call to `iter` starts a fresh traversal from the first entry. -/
theorem c3_iteration_insertion_order (m : List (String × State)) (k : Nat) :
    ((States.init (some m)).iter).drain = m.map Prod.snd ∧
    (ValuesIterator.stepN k ((States.init (some m)).iter)).drain =
      (m.map Prod.snd).drop k := by
  constructor
  · exact drain_mk (m.map Prod.snd)
  · exact stepN_drain k (m.map Prod.snd)

/-- C4. Two registries compare equal exactly when their ordered iteration
sequences are element-wise equal; two registries built from identical
ordered inputs compare equal; and reversing the input order breaks equality
whenever the reversed entity sequence differs from the original. -/
theorem c4_eq_iff_same_sequence (a b : States) (m : List (String × State))
    (hrev : m.map Prod.snd ≠ (m.reverse).map Prod.snd) :
    (a.eq (.registry b) = true ↔ a.list = b.list) ∧
    (States.init (some m)).eq (.registry (States.init (some m))) = true ∧
    (States.init (some m)).eq (.registry (States.init (some m.reverse))) = false := by
  refine ⟨?_, ?_, ?_⟩
  · simp [States.eq, States.pyListOf]
  · simp [States.eq, States.pyListOf]
  · simp only [States.eq, States.pyListOf, beq_eq_false_iff_ne, ne_eq]
    exact hrev

/-- Witness for C4: two distinct-value entities under reversal. -/
theorem c4_witness :
    ([("A", stA), ("B", stB)].map Prod.snd ≠
      ([("A", stA), ("B", stB)].reverse).map Prod.snd) ∧
    (States.init (some [("A", stA), ("B", stB)])).eq
      (.registry (States.init (some [("A", stA), ("B", stB)]))) = true ∧
    (States.init (some [("A", stA), ("B", stB)])).eq
      (.registry (States.init (some ([("A", stA), ("B", stB)].reverse)))) = false := by
  have h := c4_eq_iff_same_sequence (States.init (some [("A", stA), ("B", stB)]))
    (States.init (some [("A", stA), ("B", stB)])) [("A", stA), ("B", stB)] (by decide)
  exact ⟨by decide, h.2.1, h.2.2⟩

/-! ### from_enum characterization -/

theorem lookup_map_by_name (g : EnumConst → State) (members : List EnumConst)
    (e : EnumConst) (hN : (members.map EnumConst.name).Nodup) (he : e ∈ members) :
    (members.map (fun x => (x.name, g x))).lookup e.name = some (g e) := by
  induction members with
  | nil => simp at he
  | cons x rest ih =>
    simp only [List.map_cons, List.nodup_cons] at hN
    by_cases hx : e.name = x.name
    · have hex : e = x := by
        rcases List.mem_cons.mp he with h | h
        · exact h
        · exact absurd (hx ▸ List.mem_map_of_mem EnumConst.name h) hN.1
      subst hex
      simp [List.lookup]
    · have herest : e ∈ rest := by
        rcases List.mem_cons.mp he with h | h
        · exact absurd (congrArg EnumConst.name h) hx
        · exact h
      simp only [List.map_cons, List.lookup, beq_eq_false_iff_ne.mpr hx]
      exact ih hN.2 herest

theorem from_enum_states_eq (members : List EnumConst) (initial : EnumConst)
    (final : FinalSel) (flag : Bool) (hN : (members.map EnumConst.name).Nodup) :
    (States.from_enum members initial final flag)._states =
      members.map (fun e =>
        (e.name,
         { id := e.name
           value := if flag then Value.enum e else Value.int e.value
           initial := e == initial
           final := (ensure_iterable final).contains e : State })) := by
  have h1 : (States.from_enum members initial final flag)._states =
      dictOfList (members.map (fun e =>
        (e.name,
         { id := e.name
           value := if flag then Value.enum e else Value.int e.value
           initial := e == initial
           final := (ensure_iterable final).contains e : State }))) := rfl
  rw [h1, dictOfList_eq_self]
  rw [List.map_map]
  exact hN

theorem from_enum_lookup (members : List EnumConst) (initial : EnumConst)
    (final : FinalSel) (flag : Bool) (e : EnumConst)
    (hN : (members.map EnumConst.name).Nodup) (he : e ∈ members) :
    (States.from_enum members initial final flag)._states.lookup e.name =
      some { id := e.name
             value := if flag then Value.enum e else Value.int e.value
             initial := e == initial
             final := (ensure_iterable final).contains e } := by
  rw [from_enum_states_eq members initial final flag hN]
  exact lookup_map_by_name _ members e hN he

theorem enumConst_contains_iff (l : List EnumConst) (a : EnumConst) :
    l.contains a = true ↔ a ∈ l := by
  simp [List.contains_iff_exists_mem_beq]

/-! ### Sample enumeration constants for witnesses. `alienConst` has the same
name and scalar value as `pendingConst` but belongs to a different enum
class, so it is structurally similar but not identical to it. -/

def pendingConst : EnumConst := ⟨0, "pending", 1⟩

def completedConst : EnumConst := ⟨0, "completed", 2⟩

def statusMembers : List EnumConst := [pendingConst, completedConst]

def alienConst : EnumConst := ⟨1, "pending", 1⟩

/-- C5. For every constant `e` of the enumeration (member names distinct, as
Python enforces for enums): with the flag unset the constructed entity's
value is `e`'s underlying scalar, and with the flag set it is the constant
`e` itself. -/
theorem c5_value_mode (members : List EnumConst) (initial : EnumConst)
    (final : FinalSel) (e : EnumConst)
    (hN : (members.map EnumConst.name).Nodup) (he : e ∈ members) :
    ((States.from_enum members initial final false)._states.lookup e.name).map
      State.value = some (Value.int e.value) ∧
    ((States.from_enum members initial final true)._states.lookup e.name).map
      State.value = some (Value.enum e) := by
  rw [from_enum_lookup members initial final false e hN he,
    from_enum_lookup members initial final true e hN he]
  exact ⟨rfl, rfl⟩

/-- Witness for C5: on the two-member status enumeration, scalar mode stores
the scalar `2` for `completed`, identity mode stores the constant itself. -/
theorem c5_witness :
    ((States.from_enum statusMembers pendingConst .none false)._states.lookup
      completedConst.name).map State.value = some (Value.int 2) ∧
    ((States.from_enum statusMembers pendingConst .none true)._states.lookup
      completedConst.name).map State.value = some (Value.enum completedConst) := by
  have h := c5_value_mode statusMembers pendingConst .none completedConst
    (by decide) (by decide)
  exact ⟨h.1, h.2⟩

/-- C6. For every constant of the enumeration, the constructed entity is
initial exactly when the constant is (by identity) the designated initial
constant; a constant from a different enum class (identity differs even
when name and value agree) is never marked initial; when the designated
initial constant is not a member, no entity is marked initial; and the
adapter still returns a full registry (one entry per member) without
rejecting or reporting. -/
theorem c6_initial_by_identity (members : List EnumConst) (initial : EnumConst)
    (final : FinalSel) (flag : Bool) (hN : (members.map EnumConst.name).Nodup) :
    (∀ e, e ∈ members →
      ∃ st, (States.from_enum members initial final flag)._states.lookup e.name =
        some st ∧ (st.initial = true ↔ e = initial)) ∧
    (∀ e, e ∈ members → e.enumId ≠ initial.enumId →
      ((States.from_enum members initial final flag)._states.lookup e.name).map
        State.initial = some false) ∧
    (initial ∉ members →
      ∀ st, st ∈ (States.from_enum members initial final flag).list →
        st.initial = false) ∧
    (States.from_enum members initial final flag).length = members.length := by
  refine ⟨?_, ?_, ?_, ?_⟩
  · intro e he
    exact ⟨_, from_enum_lookup members initial final flag e hN he, by simp⟩
  · intro e he hid
    rw [from_enum_lookup members initial final flag e hN he]
    have hne : (e == initial) = false :=
      beq_eq_false_iff_ne.mpr fun hc => hid (congrArg EnumConst.enumId hc)
    simp [hne]
  · intro hnot st hst
    rw [show (States.from_enum members initial final flag).list =
        ((States.from_enum members initial final flag)._states).map Prod.snd from rfl,
      from_enum_states_eq members initial final flag hN, List.map_map] at hst
    obtain ⟨e, he, rfl⟩ := List.mem_map.mp hst
    exact beq_eq_false_iff_ne.mpr fun hc => hnot (hc ▸ he)
  · show ((States.from_enum members initial final flag)._states).length = _
    rw [from_enum_states_eq members initial final flag hN, List.length_map]

/-- Witness for C6: `pending` is marked initial when designated; designating
`alienConst` (same name and value as `pending`, different enum class) marks
nothing initial, and the adapter still yields a 2-entry registry. -/
theorem c6_witness :
    ((States.from_enum statusMembers pendingConst .none false)._states.lookup
      pendingConst.name).map State.initial = some true ∧
    ((States.from_enum statusMembers alienConst .none false)._states.lookup
      pendingConst.name).map State.initial = some false ∧
    (States.from_enum statusMembers alienConst .none false).length = 2 := by
  obtain ⟨st, hlk, hiff⟩ := (c6_initial_by_identity statusMembers pendingConst .none
    false (by decide)).1 pendingConst (by decide)
  refine ⟨?_, ?_, ?_⟩
  · rw [hlk]
    simpa using hiff.mpr rfl
  · exact (c6_initial_by_identity statusMembers alienConst .none false (by decide)).2.1
      pendingConst (by decide) (by decide)
  · exact (c6_initial_by_identity statusMembers alienConst .none false (by decide)).2.2.2

/-- C7. The final selector is normalized uniformly into a collection — an
absent selector to the empty one, a single constant to a singleton, a
collection passed through — and for every constant of the enumeration the
constructed entity is final exactly when the constant is a member of the
normalized collection; with no final selector supplied, no entity is
final. -/
theorem c7_final_membership (members : List EnumConst) (initial : EnumConst)
    (flag : Bool) (final : FinalSel) (hN : (members.map EnumConst.name).Nodup) :
    (∀ e, e ∈ members →
      ∃ st, (States.from_enum members initial final flag)._states.lookup e.name =
        some st ∧ (st.final = true ↔ e ∈ ensure_iterable final)) ∧
    (∀ c, ensure_iterable (FinalSel.single c) = [c]) ∧
    (∀ cs, ensure_iterable (FinalSel.many cs) = cs) ∧
    ensure_iterable FinalSel.none = [] ∧
    (∀ st, st ∈ (States.from_enum members initial FinalSel.none flag).list →
      st.final = false) := by
  refine ⟨?_, fun c => rfl, fun cs => rfl, rfl, ?_⟩
  · intro e he
    exact ⟨_, from_enum_lookup members initial final flag e hN he,
      enumConst_contains_iff _ e⟩
  · intro st hst
    rw [show (States.from_enum members initial .none flag).list =
        ((States.from_enum members initial .none flag)._states).map Prod.snd from rfl,
      from_enum_states_eq members initial .none flag hN, List.map_map] at hst
    obtain ⟨e, _, rfl⟩ := List.mem_map.mp hst
    rfl

/-- Witness for C7: with the single-constant selector `completed`, the
`completed` entity is final and `pending` is not; with no selector,
`completed` is not final. -/
theorem c7_witness :
    ((States.from_enum statusMembers pendingConst (.single completedConst)
      false)._states.lookup completedConst.name).map State.final = some true ∧
    ((States.from_enum statusMembers pendingConst (.single completedConst)
      false)._states.lookup pendingConst.name).map State.final = some false ∧
    ((States.from_enum statusMembers pendingConst .none false)._states.lookup
      completedConst.name).map State.final = some false := by
  obtain ⟨st, hlk, hiff⟩ := (c7_final_membership statusMembers pendingConst false
    (.single completedConst) (by decide)).1 completedConst (by decide)
  obtain ⟨st2, hlk2, hiff2⟩ := (c7_final_membership statusMembers pendingConst false
    (.single completedConst) (by decide)).1 pendingConst (by decide)
  obtain ⟨st3, hlk3, hiff3⟩ := (c7_final_membership statusMembers pendingConst false
    .none (by decide)).1 completedConst (by decide)
  refine ⟨?_, ?_, ?_⟩
  · rw [hlk]
    simpa using hiff.mpr (by decide)
  · rw [hlk2]
    simp only [Option.map_some']
    refine congrArg some ?_
    by_contra hc
    exact absurd (hiff2.mp (by simpa using hc)) (by decide)
  · rw [hlk3]
    simp only [Option.map_some']
    refine congrArg some ?_
    by_contra hc
    exact absurd (hiff3.mp (by simpa using hc)) (by decide)

/-- C9 counterexample: direct construction with a malformed (non-mapping)
argument — the integer 42 — succeeds at construction time, storing the
malformed value; the failure only surfaces lazily, on first use, and as the
host's generic `AttributeError`. The adapter likewise signals a
non-iterable input with the generic `TypeError`, not a dedicated
InvalidInput error. This refutes the claim as stated. -/
theorem c9_counterexample :
    States.initDyn (some (.pyInt 42)) = .ok (.pyInt 42) ∧
    States.iterDyn (.pyInt 42) =
      .error (.attributeError "int object has no attribute values") ∧
    States.from_enumDyn (.notIterable 7) pendingConst =
      .error (.typeError "int object is not iterable") :=
  ⟨rfl, rfl, rfl⟩

/-- C9 amended: the enumeration adapter fails synchronously at construction
time — via the host's generic `TypeError`/`AttributeError`, not a dedicated
InvalidInput error kind — when the enumeration input is not iterable or its
elements are malformed (lacking `.name`), and on failure no registry,
partial or otherwise, is produced; direct construction, by contrast,
performs no validation at all: any value, malformed mappings included, is
accepted at construction time and failure surfaces only lazily on first
use. -/
theorem c9_construction_errors (members : List EnumConst) (ini : EnumConst)
    (final : FinalSel) (flag : Bool) (n : Int) (xs : List Int) (v : PyVal)
    (entries : List (String × State)) :
    States.from_enumDyn (.enum members) ini final flag =
      .ok (States.from_enum members ini final flag) ∧
    States.from_enumDyn (.notIterable n) ini final flag =
      .error (.typeError "int object is not iterable") ∧
    States.from_enumDyn (.iterableOfInts xs) ini final flag =
      .error (.attributeError "int object has no attribute name") ∧
    States.initDyn (some v) = .ok v ∧
    States.iterDyn (.dict entries) = .ok (entries.map Prod.snd) ∧
    States.iterDyn (.pyInt n) =
      .error (.attributeError "int object has no attribute values") :=
  ⟨rfl, rfl, rfl, rfl, rfl, rfl⟩

/-- C10. Registry equality is decided solely by the iterated entity
sequence and is not restricted to registry operands: a registry compares
equal to a plain ordered list exactly when the list equals its iteration
sequence, and the mapping keys play no role — two registries whose key
sequences differ but whose entity sequences agree compare equal. -/
theorem c10_eq_ignores_keys (a : States) (l : List State)
    (m1 m2 : List (String × State)) (hvals : m1.map Prod.snd = m2.map Prod.snd) :
    (a.eq (.pyList l) = true ↔ a.list = l) ∧
    (States.init (some m1)).eq (.registry (States.init (some m2))) = true := by
  constructor
  · simp [States.eq, States.pyListOf]
  · simp only [States.eq, States.pyListOf, beq_iff_eq]
    exact hvals

/-- Witness for C10: a registry equals the plain list of its entities, and
two registries stored under different keys but with equal entity sequences
compare equal. -/
theorem c10_witness :
    ((States.init (some [("x", stA), ("y", stB)])).eq (.pyList [stA, stB]) = true) ∧
    (States.init (some [("x", stA)])).eq
      (.registry (States.init (some [("different", stA)]))) = true := by
  have h := c10_eq_ignores_keys (States.init (some [("x", stA), ("y", stB)]))
    [stA, stB] [("x", stA)] [("different", stA)] (by decide)
  exact ⟨h.1.mpr (by decide), h.2⟩
